import Mathlib

/-!
Verification of the AutoLabel plugin core (`src/autolabel/core.py`).

The core is embedded shallowly:

* Python's `re` module is an external library; it is modelled by a
  `RegexEngine` record with a compile check and a search function.  For
  patterns containing no regex metacharacter, CPython's `re.search`
  degenerates to (case-folded) substring search; `litSearch` implements
  that behaviour and `litEngine` packages it as a concrete engine used to
  instantiate theorems.
* The Label plugin and the torrent manager are external collaborators
  (spec §6).  Their observable state is a `LabelSt` record (label set,
  per-torrent label map, availability, and which label creations fail);
  calls into the collaborator are recorded as `Effect`s in a trace, so that
  statements of the form "no label call occurs" are expressible.
* Rules are Python dicts whose fields may be absent, hence `Option` fields
  with the defaulting reads (`rule.get('enabled', True)` etc.) made
  explicit at the use sites, exactly as in the source.
-/

/-- Span and text of a regex match, as exposed by Python match objects
(`group(0)`, `start()`, `end()`). -/
structure ReMatch where
  start : Nat
  stop : Nat
  matched : String
  deriving DecidableEq, Repr

/-- External regex engine (Python's `re`).  `compileErr p = some msg` means
`re.compile(p)` raises `re.error(msg)`; `searchFn ci p t` is the result of
`re.search(p, t, re.IGNORECASE if ci else 0)` for a compiling pattern
(`none` = no match).  `re.search` on a non-compiling pattern raises the same
`re.error` as `re.compile`, which `reSearch` below builds in. -/
structure RegexEngine where
  compileErr : String → Option String
  searchFn : Bool → String → String → Option ReMatch

/-- One rule record: a Python dict with possibly-absent fields
(`label`, `pattern`, `enabled`). -/
structure Rule where
  label : Option String
  pattern : Option String
  enabled : Option Bool
  deriving DecidableEq, Repr

/-- Plugin configuration (`DEFAULT_PREFS` keys). -/
structure Config where
  rules : List Rule
  apply_on_add : Bool
  skip_if_labeled : Bool
  case_insensitive : Bool

/-- One call into the external labeling collaborator. -/
inductive Effect where
  | getLabels : Effect
  | addLabel (l : String) : Effect
  | setTorrent (tid l : String) : Effect
  deriving DecidableEq, Repr

/-- Observable state of the external Label collaborator: whether
`_get_label_plugin` resolves it, its label set (`get_labels()`), which
label creations fail (`add` raising), and the per-torrent label map that
`label.conf`'s `torrent_labels` exposes. -/
structure LabelSt where
  available : Bool
  labels : List String
  addFails : String → Bool
  torrentLabels : List (String × String)

/-- Result of a stateful core operation: the returned boolean, the
collaborator state afterwards, and the trace of collaborator calls made. -/
structure CallOut where
  result : Bool
  st : LabelSt
  trace : List Effect

/-- ASCII lower-casing of a string (Python `str.lower()`; all strings in
play here are ASCII). -/
def lowerStr (s : String) : String :=
  String.mk (s.toList.map Char.toLower)

/-- Case-fold a character list when `ci` is true. -/
def foldCase (ci : Bool) (s : List Char) : List Char :=
  if ci then s.map Char.toLower else s

/-- Characters that are special in Python regular expressions. -/
def reSpecialChars : List Char :=
  ['.', '^', '$', '*', '+', '?', '{', '}', '[', ']', '\\', '|', '(', ')']

/-- A pattern with no regex metacharacter; `re.search` treats it as a
plain (case-folded, when `IGNORECASE`) substring search. -/
def isLiteral (p : String) : Bool :=
  p.toList.all (fun c => !(reSpecialChars.contains c))

/-- Index of the leftmost position of `t` at which `p` occurs, if any. -/
def firstMatchIdx (p : List Char) : List Char → Option Nat
  | [] => if p.isPrefixOf ([] : List Char) then some 0 else none
  | c :: t => if p.isPrefixOf (c :: t) then some 0 else (firstMatchIdx p t).map (· + 1)

/-- Behaviour of `re.search` on a literal pattern: leftmost (case-folded
when `ci`) occurrence of `p` in `t`; the matched text is the corresponding
slice of the original string. -/
def litSearch (ci : Bool) (p t : String) : Option ReMatch :=
  match firstMatchIdx (foldCase ci p.toList) (foldCase ci t.toList) with
  | none => none
  | some i =>
      some { start := i, stop := i + p.toList.length,
             matched := String.mk ((t.toList.drop i).take p.toList.length) }

/-- Concrete engine handling exactly the literal patterns (every
non-literal pattern is rejected with a fixed message); used to instantiate
theorems at concrete inputs. -/
def litEngine : RegexEngine where
  compileErr := fun p => if isLiteral p then none else some "cannot compile pattern"
  searchFn := litSearch

/-- Association-list lookup (collaborator-side storage of
`torrent_labels`). -/
def lookupAssoc : List (String × String) → String → Option String
  | [], _ => none
  | (k, v) :: rest, k' => if k = k' then some v else lookupAssoc rest k'

/-- Association-list update, the collaborator's `set_label` state change
(spec §6: a later `get_label` returns the name just set). -/
def updateAssoc (m : List (String × String)) (k v : String) : List (String × String) :=
  match m with
  | [] => [(k, v)]
  | (k', v') :: rest => if k' = k then (k, v) :: rest else (k', v') :: updateAssoc rest k v

/-- Source `Core._get_torrent_name`: the torrent's name if the id is known
to the torrent manager, else the empty string. -/
def get_torrent_name (names : List (String × String)) (tid : String) : String :=
  (lookupAssoc names tid).getD ""

/-- Source `Core._get_torrent_label`: the current label recorded for the
torrent in `label.conf`, else the empty string. -/
def get_torrent_label (st : LabelSt) (tid : String) : String :=
  (lookupAssoc st.torrentLabels tid).getD ""

/-- Python `re.search(p, t, flags)`: raises (`Except.error`) exactly when
the pattern does not compile, otherwise searches. -/
def reSearch (e : RegexEngine) (ci : Bool) (p t : String) : Except String (Option ReMatch) :=
  match e.compileErr p with
  | some msg => Except.error msg
  | none => Except.ok (e.searchFn ci p t)

/-- Source `Core._match_pattern`: `bool(re.search(pattern, torrent_name,
flags))` with `re.error` caught and turned into `False`. -/
def match_pattern (e : RegexEngine) (cfg : Config) (torrent_name pattern : String) : Bool :=
  match reSearch e cfg.case_insensitive pattern torrent_name with
  | Except.error _ => false
  | Except.ok m => m.isSome

/-- Source `Core._set_torrent_label` together with the collaborator's §6
state transitions: fetch the label set, create the lower-cased label when
no existing label matches case-insensitively (aborting on creation
failure), then assign the lower-cased label. -/
def set_torrent_label (st : LabelSt) (tid label_id : String) : CallOut :=
  if st.available then
    let lo := lowerStr label_id
    if (st.labels.map lowerStr).contains lo then
      { result := true,
        st := { st with torrentLabels := updateAssoc st.torrentLabels tid lo },
        trace := [Effect.getLabels, Effect.setTorrent tid lo] }
    else if st.addFails lo then
      { result := false, st := st,
        trace := [Effect.getLabels, Effect.addLabel lo] }
    else
      let st' := { st with labels := st.labels ++ [lo],
                           torrentLabels := updateAssoc st.torrentLabels tid lo }
      { result := true, st := st',
        trace := [Effect.getLabels, Effect.addLabel lo, Effect.setTorrent tid lo] }
  else
    { result := false, st := st, trace := [] }

/-- Rule loop of `Core._apply_rules_to_torrent`: skip disabled rules
(`rule.get('enabled', True)`), skip rules with empty pattern or label,
assign on first pattern match, `False` when no rule matches. -/
def applyRulesLoop (e : RegexEngine) (cfg : Config) (st : LabelSt)
    (tid torrent_name : String) : List Rule → CallOut
  | [] => { result := false, st := st, trace := [] }
  | r :: rs =>
      if !(r.enabled.getD true) then
        applyRulesLoop e cfg st tid torrent_name rs
      else
        let pattern := r.pattern.getD ""
        let label := r.label.getD ""
        if pattern = "" ∨ label = "" then
          applyRulesLoop e cfg st tid torrent_name rs
        else if match_pattern e cfg torrent_name pattern then
          set_torrent_label st tid label
        else
          applyRulesLoop e cfg st tid torrent_name rs

/-- Source `Core._apply_rules_to_torrent` (also exported verbatim as
`apply_rules_to_torrent`): abort on unresolvable name, skip-if-labeled
check, then the rule loop. -/
def apply_rules_to_torrent (e : RegexEngine) (names : List (String × String))
    (cfg : Config) (st : LabelSt) (tid : String) : CallOut :=
  let torrent_name := get_torrent_name names tid
  if torrent_name = "" then
    { result := false, st := st, trace := [] }
  else if cfg.skip_if_labeled ∧ get_torrent_label st tid ≠ "" then
    { result := false, st := st, trace := [] }
  else
    applyRulesLoop e cfg st tid torrent_name cfg.rules

/-- Source `Core._on_torrent_added`: no evaluation when replaying from
state or when `apply_on_add` is off.  The Python handler returns `None`;
only its state change and call trace are observable. -/
def on_torrent_added (e : RegexEngine) (names : List (String × String))
    (cfg : Config) (st : LabelSt) (tid : String) (from_state : Bool) :
    LabelSt × List Effect :=
  if from_state then
    (st, [])
  else if !cfg.apply_on_add then
    (st, [])
  else
    let o := apply_rules_to_torrent e names cfg st tid
    (o.st, o.trace)

/-- Source `Core.add_rule`: validate the pattern, append the new rule,
return its index (`len(rules) - 1` after the append). -/
def add_rule (e : RegexEngine) (rules : List Rule) (label pattern : String)
    (enabled : Bool) : Except String Nat × List Rule :=
  match e.compileErr pattern with
  | some msg => (Except.error msg, rules)
  | none =>
      (Except.ok rules.length,
       rules ++ [{ label := some label, pattern := some pattern, enabled := some enabled }])

/-- Source `Core.remove_rule`: bounds-checked `pop(index)`, returning the
removed rule. -/
def remove_rule (rules : List Rule) (index : Int) : Except String Rule × List Rule :=
  if h : 0 ≤ index ∧ index < (rules.length : Int) then
    have hi : index.toNat < rules.length := by omega
    (Except.ok (rules.get ⟨index.toNat, hi⟩), rules.eraseIdx index.toNat)
  else
    (Except.error "Invalid index", rules)

/-- Source `Core.get_rules`. -/
def get_rules (rules : List Rule) : List Rule := rules

/-- Field updates of `Core.update_rule`, applied in source order (pattern,
label, enabled) once validation has passed. -/
def applyRuleUpdates (rule : Rule) (label? pattern? : Option String)
    (enabled? : Option Bool) : Rule :=
  let r1 := match pattern? with
    | some p => { rule with pattern := some p }
    | none => rule
  let r2 := match label? with
    | some l => { r1 with label := some l }
    | none => r1
  match enabled? with
  | some b => { r2 with enabled := some b }
  | none => r2

/-- Validation step of `Core.update_rule`: a supplied pattern must
compile. -/
def patternError (e : RegexEngine) : Option String → Option String
  | none => none
  | some p => e.compileErr p

/-- Source `Core.update_rule`: bounds check, re-validate a supplied
pattern before any field is written, partial field replacement. -/
def update_rule (e : RegexEngine) (rules : List Rule) (index : Int)
    (label? pattern? : Option String) (enabled? : Option Bool) :
    Except String Rule × List Rule :=
  if h : 0 ≤ index ∧ index < (rules.length : Int) then
    have hi : index.toNat < rules.length := by omega
    match patternError e pattern? with
    | some msg => (Except.error ("Invalid regex: " ++ msg), rules)
    | none =>
        let r := applyRuleUpdates (rules.get ⟨index.toNat, hi⟩) label? pattern? enabled?
        (Except.ok r, rules.set index.toNat r)
  else
    (Except.error "Invalid index", rules)

/-- Result shape of `Core.test_pattern`: `{'matches': False, 'error': msg}`,
`{'matches': False}`, or `{'matches': True, 'matched_text': …, 'start': …,
'end': …}`. -/
inductive TestResult where
  | err (msg : String) : TestResult
  | noMatch : TestResult
  | found (matched_text : String) (start stop : Nat) : TestResult
  deriving DecidableEq, Repr

/-- Source `Core.test_pattern`: search with the configured flags, report
the match span, turn `re.error` into a structured failure. -/
def test_pattern (e : RegexEngine) (cfg : Config) (pattern test_string : String) :
    TestResult :=
  match reSearch e cfg.case_insensitive pattern test_string with
  | Except.error msg => TestResult.err msg
  | Except.ok none => TestResult.noMatch
  | Except.ok (some m) => TestResult.found m.matched m.start m.stop

/-- Spec-side matching semantics (§4.2): the pattern occurs, case-folded
when `ci`, as a substring anywhere in the name. -/
def substrFound (ci : Bool) (p t : String) : Bool :=
  (List.range (t.toList.length + 1)).any fun i =>
    (foldCase ci p.toList).isPrefixOf ((foldCase ci t.toList).drop i)

/-- A rule the evaluation loop acts on: enabled (defaulting to true),
non-empty pattern and label, and pattern matching the name. -/
def ruleFires (e : RegexEngine) (cfg : Config) (torrent_name : String) (r : Rule) : Bool :=
  r.enabled.getD true && !(r.pattern.getD "" = "") && !(r.label.getD "" = "")
    && match_pattern e cfg torrent_name (r.pattern.getD "")

/-! Helper lemmas. -/

theorem firstMatchIdx_eq_none_iff (p t : List Char) :
    firstMatchIdx p t = none ↔ ∀ i, ¬ p.isPrefixOf (t.drop i) = true := by
  induction t with
  | nil =>
      constructor
      · intro h i
        simp only [firstMatchIdx] at h
        split at h
        · exact absurd h (by simp)
        · simpa using (by assumption : ¬ p.isPrefixOf ([] : List Char) = true)
      · intro h
        simp only [firstMatchIdx]
        have := h 0
        simp only [List.drop_nil] at this
        simp [this]
  | cons c t ih =>
      constructor
      · intro h i
        simp only [firstMatchIdx] at h
        split at h
        · exact absurd h (by simp)
        · rename_i hnp
          have ht : firstMatchIdx p t = none := by
            rcases hf : firstMatchIdx p t with _ | j
            · rfl
            · rw [hf] at h; simp at h
          cases i with
          | zero => simpa using hnp
          | succ j => simpa using (ih.1 ht) j
      · intro h
        simp only [firstMatchIdx]
        have h0 := h 0
        simp only [List.drop_zero] at h0
        rw [if_neg h0]
        have ht : firstMatchIdx p t = none := ih.2 (fun j => by simpa using h (j + 1))
        simp [ht]

theorem firstMatchIdx_eq_some (p t : List Char) (i : Nat)
    (h : firstMatchIdx p t = some i) :
    p.isPrefixOf (t.drop i) = true ∧ ∀ j, j < i → ¬ p.isPrefixOf (t.drop j) = true := by
  induction t generalizing i with
  | nil =>
      simp only [firstMatchIdx] at h
      split at h
      · rename_i hp
        cases h
        exact ⟨by simpa using hp, by omega⟩
      · exact absurd h (by simp)
  | cons c t ih =>
      simp only [firstMatchIdx] at h
      split at h
      · rename_i hp
        cases h
        exact ⟨by simpa using hp, by omega⟩
      · rename_i hnp
        rcases hf : firstMatchIdx p t with _ | j
        · rw [hf] at h; simp at h
        · rw [hf] at h
          simp only [Option.map_some'] at h
          cases h
          obtain ⟨hj1, hj2⟩ := ih j hf
          refine ⟨by simpa using hj1, ?_⟩
          intro k hk
          cases k with
          | zero => simpa using hnp
          | succ k' => simpa using hj2 k' (by omega)

theorem foldCase_length (ci : Bool) (s : List Char) :
    (foldCase ci s).length = s.length := by
  unfold foldCase; split <;> simp

theorem substrFound_eq_true_iff (ci : Bool) (p t : String) :
    substrFound ci p t = true ↔
      ∃ i, (foldCase ci p.toList).isPrefixOf ((foldCase ci t.toList).drop i) = true := by
  unfold substrFound
  rw [List.any_eq_true]
  constructor
  · rintro ⟨i, _, hi⟩
    exact ⟨i, hi⟩
  · rintro ⟨i, hi⟩
    by_cases hlt : i < t.toList.length + 1
    · exact ⟨i, List.mem_range.2 hlt, hi⟩
    · have hlen : (foldCase ci t.toList).length = t.toList.length := foldCase_length ci _
      have hdrop : (foldCase ci t.toList).drop i = [] :=
        List.drop_eq_nil_of_le (by omega)
      rw [hdrop] at hi
      have hp : foldCase ci p.toList = [] := by
        simpa using hi
      refine ⟨t.toList.length, List.mem_range.2 (by omega), ?_⟩
      rw [hp]
      simp

theorem litSearch_isSome_eq (ci : Bool) (p t : String) :
    (litSearch ci p t).isSome = substrFound ci p t := by
  unfold litSearch
  rcases hf : firstMatchIdx (foldCase ci p.toList) (foldCase ci t.toList) with _ | i
  · simp only [Option.isSome_none]
    symm
    rw [Bool.eq_false_iff, Ne, substrFound_eq_true_iff]
    rintro ⟨j, hj⟩
    exact (firstMatchIdx_eq_none_iff _ _).1 hf j hj
  · simp only [Option.isSome_some]
    symm
    rw [substrFound_eq_true_iff]
    exact ⟨i, (firstMatchIdx_eq_some _ _ i hf).1⟩

theorem lookupAssoc_updateAssoc (m : List (String × String)) (k v : String) :
    lookupAssoc (updateAssoc m k v) k = some v := by
  induction m with
  | nil => simp [updateAssoc, lookupAssoc]
  | cons kv rest ih =>
      obtain ⟨k', v'⟩ := kv
      by_cases h : k' = k
      · subst h
        simp [updateAssoc, lookupAssoc]
      · simp [updateAssoc, lookupAssoc, h, ih]

theorem lowerStr_eq_empty_iff (s : String) : lowerStr s = "" ↔ s = "" := by
  constructor
  · intro h
    have hd := congrArg String.data h
    simp only [lowerStr, String.toList] at hd
    have hnil : s.data = [] := by
      have : s.data.map Char.toLower = [] := hd
      simpa using this
    exact String.ext hnil
  · intro h
    subst h
    rfl

theorem applyRulesLoop_eq_find (e : RegexEngine) (cfg : Config) (st : LabelSt)
    (tid name : String) (rs : List Rule) :
    applyRulesLoop e cfg st tid name rs =
      match rs.find? (ruleFires e cfg name) with
      | some r => set_torrent_label st tid (r.label.getD "")
      | none => { result := false, st := st, trace := [] } := by
  induction rs with
  | nil => rfl
  | cons r rs ih =>
      by_cases h1 : r.enabled.getD true = true
      · by_cases h2 : r.pattern.getD "" = "" ∨ r.label.getD "" = ""
        · have hf : ¬ ruleFires e cfg name r = true := by
            simp only [ruleFires, Bool.and_eq_true, decide_eq_true_eq,
              Bool.not_eq_true']
            rintro ⟨⟨⟨-, hp⟩, hl⟩, -⟩
            rcases h2 with h2 | h2
            · exact absurd (by simpa using hp) (by simp [h2])
            · exact absurd (by simpa using hl) (by simp [h2])
          rw [List.find?_cons_of_neg _ hf]
          rw [← ih]
          simp only [applyRulesLoop, h1, Bool.not_true, if_pos h2]
          simp
        · by_cases h3 : match_pattern e cfg name (r.pattern.getD "") = true
          · have hf : ruleFires e cfg name r = true := by
              push_neg at h2
              simp [ruleFires, h1, h3, h2.1, h2.2]
            rw [List.find?_cons_of_pos _ hf]
            simp only [applyRulesLoop, h1, Bool.not_true, if_neg h2, if_pos h3]
            simp
          · have hf : ¬ ruleFires e cfg name r = true := by
              simp only [ruleFires, Bool.and_eq_true]
              rintro ⟨-, hm⟩
              exact h3 hm
            rw [List.find?_cons_of_neg _ hf]
            rw [← ih]
            simp only [applyRulesLoop, h1, Bool.not_true, if_neg h2, if_neg h3]
            simp
      · have hf : ¬ ruleFires e cfg name r = true := by
          simp only [ruleFires, Bool.and_eq_true]
          rintro ⟨⟨⟨he, -⟩, -⟩, -⟩
          exact h1 he
        rw [List.find?_cons_of_neg _ hf]
        rw [← ih]
        simp only [applyRulesLoop]
        rw [if_pos]
        simp [h1]

theorem set_torrent_label_true_label (st : LabelSt) (tid lbl : String)
    (h : (set_torrent_label st tid lbl).result = true) :
    get_torrent_label (set_torrent_label st tid lbl).st tid = lowerStr lbl := by
  unfold set_torrent_label at h ⊢
  by_cases ha : st.available = true
  · rw [if_pos ha] at h ⊢
    by_cases hc : (st.labels.map lowerStr).contains (lowerStr lbl) = true
    · rw [if_pos hc]
      simp [get_torrent_label, lookupAssoc_updateAssoc]
    · rw [if_neg hc] at h ⊢
      by_cases hfail : st.addFails (lowerStr lbl) = true
      · rw [if_pos hfail] at h
        simp at h
      · rw [if_neg hfail]
        simp [get_torrent_label, lookupAssoc_updateAssoc]
  · rw [if_neg ha] at h
    simp at h

theorem apply_rules_result_true_labeled (e : RegexEngine)
    (names : List (String × String)) (cfg : Config) (st : LabelSt) (tid : String)
    (h : (apply_rules_to_torrent e names cfg st tid).result = true) :
    get_torrent_label (apply_rules_to_torrent e names cfg st tid).st tid ≠ "" := by
  unfold apply_rules_to_torrent at h ⊢
  by_cases hn : get_torrent_name names tid = ""
  · rw [if_pos hn] at h
    simp at h
  · rw [if_neg hn] at h ⊢
    by_cases hs : cfg.skip_if_labeled = true ∧ get_torrent_label st tid ≠ ""
    · rw [if_pos hs] at h
      simp at h
    · rw [if_neg hs] at h ⊢
      rw [applyRulesLoop_eq_find] at h ⊢
      rcases hfind : cfg.rules.find? (ruleFires e cfg (get_torrent_name names tid))
        with _ | r
      · rw [hfind] at h
        simp at h
      · rw [hfind] at h
        show get_torrent_label (set_torrent_label st tid (r.label.getD "")).st tid ≠ ""
        have hl := set_torrent_label_true_label st tid (r.label.getD "") h
        rw [hl]
        have hlbl : ¬ r.label.getD "" = "" := by
          intro hc
          have hr := List.find?_some hfind
          simp [ruleFires, hc] at hr
        intro hcon
        exact hlbl ((lowerStr_eq_empty_iff _).1 hcon)

/-! Concrete fixtures for instantiating the claim theorems. -/

/-- Concrete rule used to instantiate theorems. -/
def ruleLinux : Rule :=
  { label := some "linux", pattern := some "debian", enabled := some true }

/-- Concrete configuration used to instantiate theorems. -/
def cfgW : Config :=
  { rules := [ruleLinux], apply_on_add := true, skip_if_labeled := true,
    case_insensitive := true }

/-- Concrete collaborator state: plugin available, one existing label, all
label creations succeed. -/
def stW : LabelSt :=
  { available := true, labels := ["movies"], addFails := fun _ => false,
    torrentLabels := [] }

/-- Concrete collaborator state in which every label creation fails. -/
def stAddFail : LabelSt :=
  { available := true, labels := ["movies"], addFails := fun _ => true,
    torrentLabels := [] }

/-- Concrete collaborator state in which torrent t1 is already labeled. -/
def stLabeled : LabelSt :=
  { available := true, labels := ["movies"], addFails := fun _ => false,
    torrentLabels := [("t1", "movies")] }

/-- Concrete torrent table. -/
def namesW : List (String × String) := [("t1", "debian-12-netinst.iso")]

/-! Claim theorems. -/

/-- C1: for every configuration and torrent whose name resolves non-empty
and which the skip-if-labeled check does not skip, `apply_rules_to_torrent`
walks the rule list in stored order, skipping disabled rules and rules
with an empty label or pattern; for the first remaining rule whose pattern
matches the torrent name it invokes label assignment with that rule's
label and returns that assignment's entire outcome (boolean, state and
collaborator calls), consulting no later rule; if no rule fires it returns
false with no collaborator call. -/
theorem C1_first_match_wins (e : RegexEngine) (names : List (String × String))
    (cfg : Config) (st : LabelSt) (tid : String)
    (hname : get_torrent_name names tid ≠ "")
    (hskip : ¬ (cfg.skip_if_labeled = true ∧ get_torrent_label st tid ≠ "")) :
    (∀ r, cfg.rules.find? (ruleFires e cfg (get_torrent_name names tid)) = some r →
        apply_rules_to_torrent e names cfg st tid =
          set_torrent_label st tid (r.label.getD "")) ∧
    (cfg.rules.find? (ruleFires e cfg (get_torrent_name names tid)) = none →
        apply_rules_to_torrent e names cfg st tid =
          { result := false, st := st, trace := [] }) := by
  unfold apply_rules_to_torrent
  rw [if_neg hname, if_neg hskip, applyRulesLoop_eq_find]
  constructor
  · intro r hr
    rw [hr]
  · intro hr
    rw [hr]

/-- C1 witness: with one enabled rule labeled linux whose pattern debian
matches the torrent name, the evaluator's outcome is exactly that of
assigning linux. -/
theorem C1_first_match_wins_witness :
    apply_rules_to_torrent litEngine namesW cfgW stW "t1" =
      set_torrent_label stW "t1" "linux" := by
  have h := C1_first_match_wins litEngine namesW cfgW stW "t1"
    (by decide) (by decide)
  exact h.1 ruleLinux (by decide)

/-- C2: with `skip_if_labeled` on, a torrent whose current label is
non-empty makes `apply_rules_to_torrent` return false with no rule
evaluated, no collaborator call, and no state change; consequently a
second call after a first call that actually set a label performs no
second label-assignment call. -/
theorem C2_skip_if_labeled_idempotent (e : RegexEngine)
    (names : List (String × String)) (cfg : Config) (st : LabelSt) (tid : String)
    (hskip : cfg.skip_if_labeled = true) :
    (get_torrent_label st tid ≠ "" →
        apply_rules_to_torrent e names cfg st tid =
          { result := false, st := st, trace := [] }) ∧
    ((apply_rules_to_torrent e names cfg st tid).result = true →
        apply_rules_to_torrent e names cfg
            (apply_rules_to_torrent e names cfg st tid).st tid =
          { result := false, st := (apply_rules_to_torrent e names cfg st tid).st,
            trace := [] }) := by
  have habort : ∀ st' : LabelSt, get_torrent_label st' tid ≠ "" →
      apply_rules_to_torrent e names cfg st' tid =
        { result := false, st := st', trace := [] } := by
    intro st' hlab
    unfold apply_rules_to_torrent
    by_cases hn : get_torrent_name names tid = ""
    · rw [if_pos hn]
    · rw [if_neg hn, if_pos ⟨hskip, hlab⟩]
  refine ⟨habort st, ?_⟩
  intro hres
  exact habort _ (apply_rules_result_true_labeled e names cfg st tid hres)

/-- C2 witness: an already-labeled torrent is skipped outright. -/
theorem C2_skip_if_labeled_idempotent_witness :
    apply_rules_to_torrent litEngine namesW cfgW stLabeled "t1" =
      { result := false, st := stLabeled, trace := [] } := by
  have h := C2_skip_if_labeled_idempotent litEngine namesW cfgW stLabeled "t1" rfl
  exact h.1 (by decide)

/-- C3 counterexample: when creating the empty label fails (as it does for
the real Label collaborator, which rejects empty label names), calling
`set_torrent_label(tid, "")` returns false and the collaborator never
receives a set-label call, contradicting the claim that the call always
assigns the empty string and returns true. -/
theorem C3_counterexample :
    (set_torrent_label stAddFail "t1" "").result = false ∧
    Effect.setTorrent "t1" "" ∉ (set_torrent_label stAddFail "t1" "").trace := by
  decide

/-- C3 amended: `set_torrent_label(tid, "")` routes directly to label
assignment, bypassing rule evaluation; provided the label plugin is
available and the ensure-exists step does not fail (an empty label already
exists case-insensitively, or creating the empty label succeeds), the
collaborator receives the set-label call with the empty string, the
torrent's label afterwards is empty, and the call returns true. -/
theorem C3_set_empty_label (st : LabelSt) (tid : String)
    (ha : st.available = true)
    (hcreate : (st.labels.map lowerStr).contains "" = true ∨ st.addFails "" = false) :
    (set_torrent_label st tid "").result = true ∧
    Effect.setTorrent tid "" ∈ (set_torrent_label st tid "").trace ∧
    get_torrent_label (set_torrent_label st tid "").st tid = "" := by
  have hlo : lowerStr "" = "" := rfl
  simp only [set_torrent_label, ha, if_true, hlo]
  by_cases hc : (st.labels.map lowerStr).contains "" = true
  · rw [if_pos hc]
    simp [get_torrent_label, lookupAssoc_updateAssoc]
  · rw [if_neg hc]
    have hfail : ¬ st.addFails "" = true := by
      rcases hcreate with hcreate | hcreate
      · exact absurd hcreate hc
      · simp [hcreate]
    rw [if_neg hfail]
    simp [get_torrent_label, lookupAssoc_updateAssoc]

/-- C3 witness: with the collaborator available and label creation
succeeding, clearing via the empty string works as amended. -/
theorem C3_set_empty_label_witness :
    (set_torrent_label stW "t1" "").result = true ∧
    Effect.setTorrent "t1" "" ∈ (set_torrent_label stW "t1" "").trace ∧
    get_torrent_label (set_torrent_label stW "t1" "").st "t1" = "" :=
  C3_set_empty_label stW "t1" rfl (Or.inr rfl)

/-- C4: a torrent-added notification with `from_state=true` never triggers
rule evaluation, for every configuration (in particular any value of
`apply_on_add`), torrent and collaborator state: the handler leaves the
collaborator state untouched and makes no collaborator call. -/
theorem C4_from_state_never_evaluates (e : RegexEngine)
    (names : List (String × String)) (cfg : Config) (st : LabelSt) (tid : String) :
    on_torrent_added e names cfg st tid true = (st, []) := rfl

/-- C5: for every regex engine that realises Python's documented behaviour
on metacharacter-free patterns, `_match_pattern` reports a match exactly
when the pattern occurs as a substring anywhere in the torrent name —
case-insensitively when `case_insensitive` is on, case-sensitively
otherwise; in particular ubuntu matches the name Ubuntu 24.04 ISO
case-insensitively but not case-sensitively. -/
theorem C5_substring_matching (e : RegexEngine) (cfg : Config)
    (hcompile : ∀ p, isLiteral p = true → e.compileErr p = none)
    (hsearch : ∀ ci p t, isLiteral p = true → e.searchFn ci p t = litSearch ci p t) :
    (∀ name p, isLiteral p = true →
        match_pattern e cfg name p = substrFound cfg.case_insensitive p name) ∧
    (cfg.case_insensitive = true →
        match_pattern e cfg "Ubuntu 24.04 ISO" "ubuntu" = true) ∧
    (cfg.case_insensitive = false →
        match_pattern e cfg "Ubuntu 24.04 ISO" "ubuntu" = false) := by
  have hmp : ∀ name p, isLiteral p = true →
      match_pattern e cfg name p = substrFound cfg.case_insensitive p name := by
    intro name p hl
    unfold match_pattern reSearch
    rw [hcompile p hl]
    simp only
    rw [hsearch _ p name hl, litSearch_isSome_eq]
  refine ⟨hmp, ?_, ?_⟩
  · intro hci
    rw [hmp _ _ (by decide), hci]
    decide
  · intro hci
    rw [hmp _ _ (by decide), hci]
    decide

/-- C5 witness: the literal-substring engine satisfies the engine laws and
exhibits the two concrete matching facts together with the general
substring characterisation at a concrete rule pattern. -/
theorem C5_substring_matching_witness :
    match_pattern litEngine cfgW "Ubuntu 24.04 ISO" "ubuntu" = true ∧
    match_pattern litEngine { cfgW with case_insensitive := false }
      "Ubuntu 24.04 ISO" "ubuntu" = false := by
  have h1 := C5_substring_matching litEngine cfgW
    (fun p hp => by simp [litEngine, hp]) (fun ci p t hp => rfl)
  have h2 := C5_substring_matching litEngine { cfgW with case_insensitive := false }
    (fun p hp => by simp [litEngine, hp]) (fun ci p t hp => rfl)
  exact ⟨h1.2.1 rfl, h2.2.2 rfl⟩

/-- C6: label assignment compares the requested label case-insensitively
against the existing label set — a creation call happens exactly when no
existing label matches case-insensitively, and always with the lower-cased
label; a creation failure aborts with false and no set call; on the
success path the label actually assigned (and subsequently readable) is
the lower-cased form. -/
theorem C6_label_assignment (st : LabelSt) (tid lbl : String)
    (ha : st.available = true) :
    ((∃ x, Effect.addLabel x ∈ (set_torrent_label st tid lbl).trace) ↔
        ¬ (st.labels.map lowerStr).contains (lowerStr lbl) = true) ∧
    (∀ x, Effect.addLabel x ∈ (set_torrent_label st tid lbl).trace →
        x = lowerStr lbl) ∧
    (¬ (st.labels.map lowerStr).contains (lowerStr lbl) = true →
        st.addFails (lowerStr lbl) = true →
        (set_torrent_label st tid lbl).result = false ∧
        ∀ x, Effect.setTorrent tid x ∉ (set_torrent_label st tid lbl).trace) ∧
    ((set_torrent_label st tid lbl).result = true →
        Effect.setTorrent tid (lowerStr lbl) ∈ (set_torrent_label st tid lbl).trace ∧
        (∀ t x, Effect.setTorrent t x ∈ (set_torrent_label st tid lbl).trace →
            x = lowerStr lbl) ∧
        get_torrent_label (set_torrent_label st tid lbl).st tid = lowerStr lbl) := by
  simp only [set_torrent_label, ha, if_true]
  by_cases hc : (st.labels.map lowerStr).contains (lowerStr lbl) = true
  · rw [if_pos hc]
    simp at hc
    simp [get_torrent_label, lookupAssoc_updateAssoc]
    refine ⟨hc, fun h => ?_⟩
    obtain ⟨x, hx, he⟩ := hc
    exact absurd he (h x hx)
  · rw [if_neg hc]
    simp at hc
    by_cases hfail : st.addFails (lowerStr lbl) = true
    · rw [if_pos hfail]
      simp [hfail]
      exact hc
    · rw [if_neg hfail]
      simp at hfail
      simp [get_torrent_label, lookupAssoc_updateAssoc]
      exact ⟨hc, fun _ => hfail⟩

/-- C6 witness: assigning LinUX with no case-insensitive match present
creates and assigns linux. -/
theorem C6_label_assignment_witness :
    (set_torrent_label stW "t1" "LinUX").result = true ∧
    Effect.setTorrent "t1" (lowerStr "LinUX") ∈
      (set_torrent_label stW "t1" "LinUX").trace ∧
    get_torrent_label (set_torrent_label stW "t1" "LinUX").st "t1" = lowerStr "LinUX" := by
  have h := C6_label_assignment stW "t1" "LinUX" rfl
  have hres : (set_torrent_label stW "t1" "LinUX").result = true := by decide
  have hs := h.2.2.2 hres
  exact ⟨hres, hs.1, hs.2.2⟩

/-- C7: `update_rule` is atomic on validation failure — for an in-bounds
index, a supplied pattern that does not compile yields a structured error
with the rule list (hence the rule at that index) completely unchanged,
whatever label or enabled values were also supplied; an out-of-bounds
index yields an Invalid index error without mutation. -/
theorem C7_update_rule_atomic (e : RegexEngine) (rules : List Rule) (index : Int)
    (label? : Option String) (enabled? : Option Bool) :
    (∀ p msg, 0 ≤ index → index < (rules.length : Int) →
        e.compileErr p = some msg →
        update_rule e rules index label? (some p) enabled? =
          (Except.error ("Invalid regex: " ++ msg), rules)) ∧
    (∀ pattern? : Option String, ¬ (0 ≤ index ∧ index < (rules.length : Int)) →
        update_rule e rules index label? pattern? enabled? =
          (Except.error "Invalid index", rules)) := by
  constructor
  · intro p msg h1 h2 hbad
    unfold update_rule
    rw [dif_pos ⟨h1, h2⟩]
    simp only [patternError, hbad]
  · intro pattern? hout
    unfold update_rule
    rw [dif_neg hout]

/-- C7 witness: an invalid pattern leaves a one-rule list untouched, and
index 5 on that list is rejected. -/
theorem C7_update_rule_atomic_witness :
    update_rule litEngine [ruleLinux] 0 (some "tv") (some "[") (some false) =
      (Except.error ("Invalid regex: " ++ "cannot compile pattern"), [ruleLinux]) ∧
    update_rule litEngine [ruleLinux] 5 (some "tv") none (some false) =
      (Except.error "Invalid index", [ruleLinux]) := by
  have h0 := C7_update_rule_atomic litEngine [ruleLinux] 0 (some "tv") (some false)
  have h5 := C7_update_rule_atomic litEngine [ruleLinux] 5 (some "tv") (some false)
  refine ⟨h0.1 "[" "cannot compile pattern" (by decide) (by decide) (by decide), ?_⟩
  exact h5.2 none (by decide)

/-- C8: rule-store round trip — adding a rule with a compiling pattern
appends exactly the three-field record at the end, leaves earlier entries
unchanged and returns that last position as the rule index; removing an
in-bounds index yields the original list with exactly that element absent
and all others in original relative order. -/
theorem C8_rule_store_roundtrip (e : RegexEngine) (rules : List Rule)
    (label pattern : String) (enabled : Bool) (index : Int) :
    (e.compileErr pattern = none →
        (add_rule e rules label pattern enabled).1 = Except.ok rules.length ∧
        get_rules (add_rule e rules label pattern enabled).2 =
          rules ++ [{ label := some label, pattern := some pattern,
                      enabled := some enabled }] ∧
        (get_rules (add_rule e rules label pattern enabled).2).getLast? =
          some { label := some label, pattern := some pattern,
                 enabled := some enabled } ∧
        (get_rules (add_rule e rules label pattern enabled).2).take rules.length =
          rules) ∧
    (0 ≤ index → index < (rules.length : Int) →
        get_rules (remove_rule rules index).2 =
          rules.take index.toNat ++ rules.drop (index.toNat + 1)) := by
  constructor
  · intro hok
    unfold add_rule
    rw [hok]
    refine ⟨rfl, rfl, ?_, ?_⟩
    · simp [get_rules]
    · simp [get_rules, List.take_left]
  · intro h1 h2
    unfold remove_rule
    rw [dif_pos ⟨h1, h2⟩]
    simp [get_rules, List.eraseIdx_eq_take_drop_succ]

/-- C8 witness: adding a tv rule after the linux rule and then removing
index 0 behave as stated on a concrete store. -/
theorem C8_rule_store_roundtrip_witness :
    (add_rule litEngine [ruleLinux] "tv" "hdtv" true).1 = Except.ok 1 ∧
    get_rules (add_rule litEngine [ruleLinux] "tv" "hdtv" true).2 =
      [ruleLinux, { label := some "tv", pattern := some "hdtv",
                    enabled := some true }] ∧
    get_rules (remove_rule [ruleLinux] 0).2 = [] := by
  have h := C8_rule_store_roundtrip litEngine [ruleLinux] "tv" "hdtv" true 0
  have ha := h.1 (by decide)
  refine ⟨ha.1, ha.2.1, ?_⟩
  have hr := h.2 (by decide) (by decide)
  simpa using hr

theorem match_pattern_cong_ci (e : RegexEngine) (cfg1 cfg2 : Config)
    (h : cfg1.case_insensitive = cfg2.case_insensitive) (name p : String) :
    match_pattern e cfg1 name p = match_pattern e cfg2 name p := by
  unfold match_pattern
  rw [h]

theorem applyRulesLoop_cong_ci (e : RegexEngine) (cfg1 cfg2 : Config)
    (h : cfg1.case_insensitive = cfg2.case_insensitive) (st : LabelSt)
    (tid name : String) (l : List Rule) :
    applyRulesLoop e cfg1 st tid name l = applyRulesLoop e cfg2 st tid name l := by
  induction l with
  | nil => rfl
  | cons r rs ih =>
      simp only [applyRulesLoop, ih, match_pattern_cong_ci e cfg1 cfg2 h]

theorem applyRulesLoop_cong_rule (e : RegexEngine) (cfg : Config) (st : LabelSt)
    (tid name : String) (rs1 rs2 : List Rule) (r r' : Rule)
    (hen : r.enabled.getD true = r'.enabled.getD true)
    (hp : r.pattern = r'.pattern) (hl : r.label = r'.label) :
    applyRulesLoop e cfg st tid name (rs1 ++ r :: rs2) =
      applyRulesLoop e cfg st tid name (rs1 ++ r' :: rs2) := by
  induction rs1 with
  | nil => simp only [List.nil_append, applyRulesLoop, hen, hp, hl]
  | cons a rs1 ih =>
      simp only [List.cons_append, applyRulesLoop, List.append_eq, ih]

/-- C9: a rule record that lacks the enabled field entirely is evaluated
exactly as if enabled were true, wherever it sits in the rule list and for
every configuration, torrent and collaborator state. -/
theorem C9_missing_enabled_is_enabled (e : RegexEngine)
    (names : List (String × String)) (cfg : Config) (st : LabelSt) (tid : String)
    (rs1 rs2 : List Rule) (r : Rule) :
    apply_rules_to_torrent e names
        { cfg with rules := rs1 ++ { r with enabled := none } :: rs2 } st tid =
      apply_rules_to_torrent e names
        { cfg with rules := rs1 ++ { r with enabled := some true } :: rs2 } st tid := by
  unfold apply_rules_to_torrent
  simp only
  rw [applyRulesLoop_cong_ci e { cfg with rules := rs1 ++ { r with enabled := none } :: rs2 }
        { cfg with rules := rs1 ++ { r with enabled := some true } :: rs2 } rfl]
  rw [applyRulesLoop_cong_rule e _ st tid _ rs1 rs2 { r with enabled := none }
        { r with enabled := some true } rfl rfl rfl]

/-- C10: `test_pattern` is total — a non-compiling pattern yields a
structured failure carrying the (non-empty, as Python regex error strings
are) message instead of raising, a compiling pattern yields either a
no-match result or the engine's match span; the operation takes no
collaborator state and returns none, so it mutates nothing.  For engines
realising Python's behaviour on metacharacter-free patterns, the reported
span is the leftmost occurrence: the case-folded pattern occurs at the
reported start and at no earlier position, the end is start plus the
pattern length, and the matched text is that slice of the test string. -/
theorem C10_test_pattern_total (e : RegexEngine) (cfg : Config) (p t : String)
    (hmsg : ∀ q m, e.compileErr q = some m → m ≠ "") :
    (∀ m, e.compileErr p = some m →
        test_pattern e cfg p t = TestResult.err m ∧ m ≠ "") ∧
    (e.compileErr p = none →
        test_pattern e cfg p t =
          match e.searchFn cfg.case_insensitive p t with
          | none => TestResult.noMatch
          | some m => TestResult.found m.matched m.start m.stop) ∧
    ((∀ ci q u, isLiteral q = true → e.searchFn ci q u = litSearch ci q u) →
        isLiteral p = true → e.compileErr p = none →
        ∀ txt s en, test_pattern e cfg p t = TestResult.found txt s en →
          en = s + p.toList.length ∧
          txt = String.mk ((t.toList.drop s).take p.toList.length) ∧
          (foldCase cfg.case_insensitive p.toList).isPrefixOf
            ((foldCase cfg.case_insensitive t.toList).drop s) = true ∧
          ∀ j, j < s →
            ¬ (foldCase cfg.case_insensitive p.toList).isPrefixOf
              ((foldCase cfg.case_insensitive t.toList).drop j) = true) := by
  refine ⟨?_, ?_, ?_⟩
  · intro m hm
    unfold test_pattern reSearch
    rw [hm]
    exact ⟨rfl, hmsg p m hm⟩
  · intro hok
    unfold test_pattern reSearch
    rw [hok]
    rcases e.searchFn cfg.case_insensitive p t with _ | m
    · rfl
    · rfl
  · intro hsearch hl hok txt s en hfound
    unfold test_pattern reSearch at hfound
    rw [hok, hsearch cfg.case_insensitive p t hl] at hfound
    unfold litSearch at hfound
    rcases hf : firstMatchIdx (foldCase cfg.case_insensitive p.toList)
        (foldCase cfg.case_insensitive t.toList) with _ | i
    · rw [hf] at hfound
      simp at hfound
    · rw [hf] at hfound
      simp only [TestResult.found.injEq] at hfound
      obtain ⟨htxt, hst, hen⟩ := hfound
      subst hst
      obtain ⟨h1, h2⟩ := firstMatchIdx_eq_some _ _ _ hf
      exact ⟨hen.symm, htxt.symm, h1, h2⟩

/-- C10 witness: the literal engine rejects the pattern consisting of an
opening square bracket with a structured, non-empty error message. -/
theorem C10_test_pattern_total_witness :
    test_pattern litEngine cfgW "[" "abc" = TestResult.err "cannot compile pattern" ∧
    "cannot compile pattern" ≠ "" := by
  have hmsg : ∀ q m, litEngine.compileErr q = some m → m ≠ "" := by
    intro q m hm
    simp only [litEngine] at hm
    split at hm
    · exact absurd hm (by simp)
    · cases hm
      decide
  have h := C10_test_pattern_total litEngine cfgW "[" "abc" hmsg
  exact h.1 "cannot compile pattern" (by decide)
